import Mathlib

/-!
Verification of the engineering-team-ai repository client code and of the
pipeline orchestrator described by its specification.

The definitions below are shallow embeddings of the TypeScript source:
 - string containment models JavaScript String.prototype.includes;
 - getPhaseProgress embeds the function of the same name in the
   DetailedProgressTracker component;
 - the polling, download-button, form-submission, file-upload, activity-log
   and output-viewer logic embeds the corresponding React components and the
   api service;
 - the pipeline orchestrator itself is not part of the checked sources, so a
   transition system is modelled from the specification (marked as such).
-/

namespace ETeam

/-- JavaScript String.prototype.includes: true iff the second string occurs
as a contiguous substring of the first. -/
def jsIncludes (s sub : String) : Bool :=
  (List.range (s.data.length + 1)).any (fun i => sub.data.isPrefixOf (s.data.drop i))

/-- JavaScript String.prototype.toLowerCase, character by character. -/
def jsToLower (s : String) : String :=
  ⟨s.data.map Char.toLower⟩

/-- Embedding of getPhaseProgress from DetailedProgressTracker: lower-cases
the current phase string and matches it against fixed substrings, returning
the progress percentage shown to the user. -/
def getPhaseProgress (currentPhase : String) : Nat :=
  if jsIncludes (jsToLower currentPhase) "pending" then 0
  else if jsIncludes (jsToLower currentPhase) "phase 1" ||
          jsIncludes (jsToLower currentPhase) "creating system design" then 20
  else if jsIncludes (jsToLower currentPhase) "phase 2" ||
          jsIncludes (jsToLower currentPhase) "developing frontend" then 40
  else if jsIncludes (jsToLower currentPhase) "phase 3" ||
          jsIncludes (jsToLower currentPhase) "developing backend" then 60
  else if jsIncludes (jsToLower currentPhase) "phase 4" ||
          jsIncludes (jsToLower currentPhase) "creating test" then 80
  else if jsIncludes (jsToLower currentPhase) "phase 5" ||
          jsIncludes (jsToLower currentPhase) "creating documentation" then 90
  else if jsIncludes (jsToLower currentPhase) "completed" then 100
  else 0

/-- The successive phase strings of a run that ends in Completed, matching
the substring patterns recognised by getPhaseProgress. -/
def completedRun : List String :=
  ["Pending", "Phase 1: Creating System Design", "Phase 2: Developing Frontend",
   "Phase 3: Developing Backend", "Phase 4: Creating Tests",
   "Phase 5: Creating Documentation", "Completed"]

/-- Claim C1 (counterexample): the fifth stage phase is mapped by
getPhaseProgress to 90, not to 100, and 90 is not a multiple of 20, so the
displayed value is not always a multiple of 20. -/
theorem C1_counterexample :
    getPhaseProgress ("Phase 5: Creating Documentation") = 90 ∧
    getPhaseProgress ("Phase 5: Creating Documentation") ≠ 100 ∧
    getPhaseProgress ("Phase 5: Creating Documentation") % 20 ≠ 0 := by
  decide

/-- Claim C1 (amended): getPhaseProgress maps Pending to 0, the first four
stage phases in order to 20, 40, 60 and 80, the fifth stage phase to 90, and
Completed to 100; for every phase string the displayed value is a multiple
of 10 and at most 100. -/
theorem C1_phase_progress :
    getPhaseProgress ("Pending") = 0 ∧
    getPhaseProgress ("Phase 1: Creating System Design") = 20 ∧
    getPhaseProgress ("Phase 2: Developing Frontend") = 40 ∧
    getPhaseProgress ("Phase 3: Developing Backend") = 60 ∧
    getPhaseProgress ("Phase 4: Creating Tests") = 80 ∧
    getPhaseProgress ("Phase 5: Creating Documentation") = 90 ∧
    getPhaseProgress ("Completed") = 100 ∧
    ∀ p : String, getPhaseProgress p % 10 = 0 ∧ getPhaseProgress p ≤ 100 := by
  refine ⟨by decide, by decide, by decide, by decide, by decide, by decide,
    by decide, ?_⟩
  intro p
  unfold getPhaseProgress
  repeat' split
  all_goals decide

/-- Claim C3 (counterexample): in a run that passes through the first stage
phase and then terminates in Failed, the derived progress decreases: the
stage phase maps to 20 but Failed maps to 0. -/
theorem C3_counterexample :
    getPhaseProgress ("Phase 1: Creating System Design") = 20 ∧
    getPhaseProgress ("Failed") = 0 ∧
    ¬ getPhaseProgress ("Phase 1: Creating System Design") ≤
        getPhaseProgress ("Failed") := by
  decide

/-- Claim C3 (amended): across a run that ends in Completed the derived
progress is monotonically non-decreasing between any two of its snapshots in
order; a run that ends in Failed instead drops to 0, because getPhaseProgress
has no case for Failed and returns its default. -/
theorem C3_progress_monotone :
    List.Pairwise (fun a b => getPhaseProgress a ≤ getPhaseProgress b)
      completedRun ∧
    getPhaseProgress ("Failed") = 0 := by
  constructor
  · decide
  · decide

/-- Agent execution state, from the Agent interface of the source types:
its status field is one of idle | working | completed | failed. -/
inductive AgState where
  | idle
  | working
  | completed
  | failed
deriving DecidableEq

/-- Modelled from the spec: the pipeline phase enum
{Pending, RunningStage(i), Completed, Failed} of ProjectState; the pipeline
orchestrator is not among the checked sources, only its client is. -/
inductive Phase where
  | Pending
  | Running (i : Nat)
  | Completed
  | Failed
deriving DecidableEq

/-- Modelled from the spec: the orchestrator-visible state of one project,
the pipeline phase plus the per-stage agent statuses, indexed by stage. -/
structure Orch where
  phase : Phase
  agents : Nat → AgState

/-- Pointwise update of the agent-status map at one stage index. -/
def setAg (f : Nat → AgState) (i : Nat) (v : AgState) : Nat → AgState :=
  fun j => if j = i then v else f j

/-- The agent-status map with every agent idle. -/
def allIdle : Nat → AgState := fun _ => AgState.idle

/-- Modelled from the spec: the ProjectState created at submission, Pending
with all five agents idle. -/
def initOrch : Orch := ⟨Phase.Pending, allIdle⟩

/-- Modelled from the spec: the atomic transitions the Pipeline Orchestrator
commits per project: start stage 0; on stage success mark that stage
completed and the next stage working, or the whole pipeline Completed after
the last stage; on unrecoverable failure mark the stage failed and the
pipeline Failed. Terminal phases have no outgoing transition. -/
inductive OrchStep : Orch → Orch → Prop where
  | start (a : Nat → AgState) :
      OrchStep ⟨Phase.Pending, a⟩
        ⟨Phase.Running 0, setAg a 0 AgState.working⟩
  | success (i : Nat) (a : Nat → AgState) (h : i + 1 < 5) :
      OrchStep ⟨Phase.Running i, a⟩
        ⟨Phase.Running (i + 1),
         setAg (setAg a i AgState.completed) (i + 1) AgState.working⟩
  | finish (a : Nat → AgState) :
      OrchStep ⟨Phase.Running 4, a⟩
        ⟨Phase.Completed, setAg a 4 AgState.completed⟩
  | stageFailed (i : Nat) (a : Nat → AgState) :
      OrchStep ⟨Phase.Running i, a⟩
        ⟨Phase.Failed, setAg a i AgState.failed⟩

/-- Project states reachable from the initial state by orchestrator
transitions. -/
inductive Reach : Orch → Prop where
  | init : Reach initOrch
  | step {s t : Orch} : Reach s → OrchStep s t → Reach t

/-- Full phase-indexed invariant of reachable orchestrator states: Pending
states are all idle; while stage i runs, earlier stages are completed, stage
i is working and later stages are idle; Completed and Failed states have no
working agent; and every running stage index is below 5. -/
theorem orch_inv (s : Orch) (h : Reach s) :
    (s.phase = Phase.Pending → ∀ j, s.agents j = AgState.idle) ∧
    (∀ i, s.phase = Phase.Running i →
      i < 5 ∧
      (∀ j, j < i → s.agents j = AgState.completed) ∧
      s.agents i = AgState.working ∧
      (∀ j, i < j → s.agents j = AgState.idle)) ∧
    (s.phase = Phase.Completed → ∀ j, s.agents j ≠ AgState.working) ∧
    (s.phase = Phase.Failed → ∀ j, s.agents j ≠ AgState.working) := by
  induction h with
  | init =>
      refine ⟨fun _ j => rfl, ?_, ?_, ?_⟩
      · intro i hi; cases hi
      · intro hp; cases hp
      · intro hp; cases hp
  | step hr hstep ih =>
      cases hstep with
      | start a =>
          have hidle : ∀ j, a j = AgState.idle := ih.1 rfl
          refine ⟨?_, ?_, ?_, ?_⟩
          · intro hp; cases hp
          · intro i hi
            have hi0 : i = 0 := by cases hi; rfl
            subst hi0
            refine ⟨by omega, ?_, ?_, ?_⟩
            · intro j hj; omega
            · simp [setAg]
            · intro j hj
              have hj0 : j ≠ 0 := by omega
              simp [setAg, hj0, hidle j]
          · intro hp; cases hp
          · intro hp; cases hp
      | success i a h =>
          obtain ⟨-, hbef, -, haft⟩ := ih.2.1 i rfl
          dsimp only at hbef haft
          refine ⟨?_, ?_, ?_, ?_⟩
          · intro hp; cases hp
          · intro i' hi'
            have hieq : i' = i + 1 := by cases hi'; rfl
            subst hieq
            refine ⟨by omega, ?_, ?_, ?_⟩
            · intro j hj
              rcases Nat.lt_or_ge j i with hji | hji
              · have h1 : j ≠ i + 1 := by omega
                have h2 : j ≠ i := by omega
                simp [setAg, h1, h2, hbef j hji]
              · have hje : j = i := by omega
                subst hje
                have h1 : j ≠ j + 1 := by omega
                simp [setAg, h1]
            · simp [setAg]
            · intro j hj
              have h1 : j ≠ i + 1 := by omega
              have h2 : j ≠ i := by omega
              simp [setAg, h1, h2, haft j (by omega)]
          · intro hp; cases hp
          · intro hp; cases hp
      | finish a =>
          obtain ⟨-, hbef, -, haft⟩ := ih.2.1 4 rfl
          dsimp only at hbef haft
          refine ⟨?_, ?_, ?_, ?_⟩
          · intro hp; cases hp
          · intro i hi; cases hi
          · intro _ j
            rcases Nat.lt_trichotomy j 4 with hj | hj | hj
            · have h1 : j ≠ 4 := by omega
              simp [setAg, h1, hbef j hj]
            · subst hj
              simp [setAg]
            · have h1 : j ≠ 4 := by omega
              simp [setAg, h1, haft j hj]
          · intro hp; cases hp
      | stageFailed i a =>
          obtain ⟨-, hbef, -, haft⟩ := ih.2.1 i rfl
          dsimp only at hbef haft
          refine ⟨?_, ?_, ?_, ?_⟩
          · intro hp; cases hp
          · intro i' hi'; cases hi'
          · intro hp; cases hp
          · intro _ j
            rcases Nat.lt_trichotomy j i with hj | hj | hj
            · have h1 : j ≠ i := by omega
              simp [setAg, h1, hbef j hj]
            · subst hj
              simp [setAg]
            · have h1 : j ≠ i := by omega
              simp [setAg, h1, haft j hj]

/-- Claim C2: at every reachable snapshot at most one agent is working;
whenever stage i is the current stage, every agent of an earlier stage is
completed and every agent of a later stage is idle; and every agent status is
one of the four values idle, working, completed and failed. -/
theorem C2_single_working (s : Orch) (h : Reach s) :
    (∀ j k : Nat, s.agents j = AgState.working →
      s.agents k = AgState.working → j = k) ∧
    (∀ i : Nat, s.phase = Phase.Running i →
      (∀ j, j < i → s.agents j = AgState.completed) ∧
      (∀ j, i < j → s.agents j = AgState.idle)) ∧
    (∀ j : Nat, s.agents j = AgState.idle ∨ s.agents j = AgState.working ∨
      s.agents j = AgState.completed ∨ s.agents j = AgState.failed) := by
  obtain ⟨hpend, hrun, hcomp, hfail⟩ := orch_inv s h
  refine ⟨?_, ?_, ?_⟩
  · intro j k hj hk
    cases hs : s.phase with
    | Pending =>
        rw [hpend hs j] at hj; cases hj
    | Running i =>
        obtain ⟨-, hbef, -, haft⟩ := hrun i hs
        have hj' : j = i := by
          rcases Nat.lt_trichotomy j i with h1 | h1 | h1
          · rw [hbef j h1] at hj; cases hj
          · exact h1
          · rw [haft j h1] at hj; cases hj
        have hk' : k = i := by
          rcases Nat.lt_trichotomy k i with h1 | h1 | h1
          · rw [hbef k h1] at hk; cases hk
          · exact h1
          · rw [haft k h1] at hk; cases hk
        omega
    | Completed => exact absurd hj (hcomp hs j)
    | Failed => exact absurd hj (hfail hs j)
  · intro i hi
    obtain ⟨-, hbef, -, haft⟩ := hrun i hi
    exact ⟨hbef, haft⟩
  · intro j
    cases hsj : s.agents j <;> simp

/-- The project state reached after the orchestrator starts stage 0. -/
def orchS1 : Orch := ⟨Phase.Running 0, setAg allIdle 0 AgState.working⟩

/-- Witness for C2: the state after starting stage 0 is reachable, and the
invariant there yields that the agent of stage 2 is still idle. -/
theorem C2_single_working_witness :
    Reach orchS1 ∧ orchS1.agents 2 = AgState.idle :=
  ⟨Reach.step Reach.init (OrchStep.start allIdle),
   ((C2_single_working orchS1
       (Reach.step Reach.init (OrchStep.start allIdle))).2.1 0 rfl).2 2
     (by omega)⟩

/-- No orchestrator transition leaves a Failed project state. -/
theorem orchStep_src_not_failed {s t : Orch} (hst : OrchStep s t) :
    s.phase ≠ Phase.Failed := by
  cases hst <;> intro hp <;> cases hp

/-- Along any sequence of orchestrator transitions, the Failed phase is
inescapable. -/
theorem steps_from_failed {s t : Orch}
    (h : Relation.ReflTransGen OrchStep s t)
    (hs : s.phase = Phase.Failed) : t.phase = Phase.Failed := by
  induction h with
  | refl => exact hs
  | tail hbc hcd ih => exact absurd ih (orchStep_src_not_failed hcd)

/-- The status response observed by the polling client: the reported current
phase string and an optional error field, from the pollStatus handler. -/
structure StatusResp where
  currentPhase : String
  error : Option String
deriving DecidableEq

/-- Embedding of the stop condition of pollStatus in EngineeringTeamPage:
polling stops when the current phase is Completed, Failed, or contains
Complete. -/
def stopPolling (p : String) : Bool :=
  p == "Completed" || p == "Failed" || jsIncludes p ("Complete")

/-- Embedding of the early return of pollStatus: a response whose error field
contains not found is skipped and polling continues. -/
def skipResponse (r : StatusResp) : Bool :=
  match r.error with
  | some e => jsIncludes e ("not found")
  | none => false

/-- The polling client state: the last status it holds and whether it is
still polling. -/
structure PollState where
  status : Option StatusResp
  isPolling : Bool
deriving DecidableEq

/-- Embedding of one pollStatus invocation: when not polling nothing happens;
a skipped response leaves the state unchanged; otherwise the response is
stored and polling continues iff the phase is not terminal. -/
def pollStep (st : PollState) (r : StatusResp) : PollState :=
  if st.isPolling then
    if skipResponse r then st
    else ⟨some r, !stopPolling r.currentPhase⟩
  else st

/-- Once the client stops polling, any further observations leave its state
unchanged. -/
theorem foldl_pollStep_stopped (st : PollState) (rs : List StatusResp)
    (hp : st.isPolling = false) : List.foldl pollStep st rs = st := by
  induction rs with
  | nil => rfl
  | cons r rs ih => simp [List.foldl_cons, pollStep, hp, ih]

/-- A Failed orchestrator state with all agents idle. -/
def failedOrch : Orch := ⟨Phase.Failed, allIdle⟩

/-- Claim C4: terminal phases are sticky. Once a project phase is Failed no
sequence of orchestrator transitions reaches Completed; the polling client
stops exactly when the observed (non-skipped) currentPhase is Completed,
Failed or contains Complete; once stopped its state never changes; and
after observing a terminal phase it holds that response forever. -/
theorem C4_terminal_sticky :
    (∀ s t : Orch, Relation.ReflTransGen OrchStep s t →
      s.phase = Phase.Failed → t.phase ≠ Phase.Completed) ∧
    (∀ st : PollState, ∀ r : StatusResp, st.isPolling = true →
      skipResponse r = false →
      ((pollStep st r).isPolling = false ↔ stopPolling r.currentPhase = true)) ∧
    (∀ st : PollState, ∀ rs : List StatusResp, st.isPolling = false →
      List.foldl pollStep st rs = st) ∧
    (∀ st : PollState, ∀ r : StatusResp, ∀ rs : List StatusResp,
      st.isPolling = true → skipResponse r = false →
      stopPolling r.currentPhase = true →
      List.foldl pollStep (pollStep st r) rs = pollStep st r ∧
      (pollStep st r).status = some r) := by
  refine ⟨?_, ?_, ?_, ?_⟩
  · intro s t h hs hc
    have ht := steps_from_failed h hs
    rw [ht] at hc
    cases hc
  · intro st r hp hskip
    cases hstop : stopPolling r.currentPhase <;>
      simp [pollStep, hp, hskip, hstop]
  · intro st rs hp
    exact foldl_pollStep_stopped st rs hp
  · intro st r rs hp hskip hstop
    have h1 : pollStep st r = ⟨some r, false⟩ := by
      simp [pollStep, hp, hskip, hstop]
    rw [h1]
    exact ⟨foldl_pollStep_stopped _ _ rfl, rfl⟩

/-- A terminal status response reporting the Failed phase. -/
def termResp : StatusResp := ⟨"Failed", none⟩

/-- Witness for C4: observing the Failed phase stops the polling client, a
further observation changes nothing, and a Failed project state reaches no
Completed state. -/
theorem C4_terminal_sticky_witness :
    (pollStep ⟨none, true⟩ termResp).isPolling = false ∧
    List.foldl pollStep (pollStep ⟨none, true⟩ termResp) [termResp] =
      pollStep ⟨none, true⟩ termResp ∧
    failedOrch.phase ≠ Phase.Completed := by
  refine ⟨?_, ?_, ?_⟩
  · exact (C4_terminal_sticky.2.1 ⟨none, true⟩ termResp rfl (by decide)).mpr
      (by decide)
  · exact (C4_terminal_sticky.2.2.2 ⟨none, true⟩ termResp [termResp] rfl
      (by decide) (by decide)).1
  · exact C4_terminal_sticky.1 failedOrch failedOrch
      Relation.ReflTransGen.refl rfl

/-- Artifact category, from the GeneratedFile interface of the source types:
frontend | backend | test | documentation | design. -/
inductive FileType where
  | frontend
  | backend
  | test
  | documentation
  | design
deriving DecidableEq

/-- A generated file, from the GeneratedFile interface: path, content and
category. -/
structure GeneratedFile where
  path : String
  content : String
  type : FileType
deriving DecidableEq

/-- Modelled from the spec: a project snapshot as the download endpoint sees
it, the phase and the accumulated artifacts; the server side of the download
endpoint is not among the checked sources. -/
structure ProjectSnapshot where
  phase : Phase
  artifacts : List GeneratedFile
deriving DecidableEq

/-- The possible outcomes of the download operation. -/
inductive DownloadOutcome where
  | archive (files : List GeneratedFile)
  | notReady
  | notFound
deriving DecidableEq

/-- Modelled from the spec: the download operation looks the project up in
the registry; an unknown id yields notFound, a known project whose phase is
not Completed yields notReady, and a Completed project yields its artifact
archive. -/
def download (registry : List (String × ProjectSnapshot)) (id : String) :
    DownloadOutcome :=
  match registry.lookup id with
  | none => DownloadOutcome.notFound
  | some st =>
    match st.phase with
    | Phase.Completed => DownloadOutcome.archive st.artifacts
    | _ => DownloadOutcome.notReady

/-- Embedding of the render condition of the Download Project Files button
in EngineeringTeamPage: a status has been observed and its currentPhase is
Completed or contains Complete. -/
def showDownloadButton (status : Option StatusResp) : Bool :=
  match status with
  | none => false
  | some s =>
      s.currentPhase == "Completed" || jsIncludes s.currentPhase ("Complete")

/-- Claim C5: download yields notReady on every registered project whose
phase is not Completed, notFound on an unknown id, and the archive exactly on
Completed; the client renders the download button iff it holds a status
whose currentPhase is Completed or contains Complete. -/
theorem C5_download_gating :
    (∀ reg : List (String × ProjectSnapshot), ∀ id st,
      reg.lookup id = some st → st.phase ≠ Phase.Completed →
      download reg id = DownloadOutcome.notReady) ∧
    (∀ reg : List (String × ProjectSnapshot), ∀ id,
      reg.lookup id = none → download reg id = DownloadOutcome.notFound) ∧
    (∀ reg : List (String × ProjectSnapshot), ∀ id st,
      reg.lookup id = some st → st.phase = Phase.Completed →
      download reg id = DownloadOutcome.archive st.artifacts) ∧
    (∀ s : Option StatusResp, showDownloadButton s = true ↔
      ∃ r, s = some r ∧ (r.currentPhase = "Completed" ∨
        jsIncludes r.currentPhase ("Complete") = true)) := by
  refine ⟨?_, ?_, ?_, ?_⟩
  · intro reg id st hl hne
    unfold download
    rw [hl]
    cases hp : st.phase with
    | Completed => exact absurd hp hne
    | Pending => simp [hp]
    | Running i => simp [hp]
    | Failed => simp [hp]
  · intro reg id hl
    simp [download, hl]
  · intro reg id st hl hph
    simp [download, hl, hph]
  · intro s
    cases s <;> simp [showDownloadButton]

/-- A registered project still in the Pending phase. -/
def pendingSnap : ProjectSnapshot := ⟨Phase.Pending, []⟩

/-- A one-project registry holding a Pending project under id p1. -/
def demoRegistry : List (String × ProjectSnapshot) := [("p1", pendingSnap)]

/-- Witness for C5: download on the Pending project yields notReady, on an
unknown id yields notFound, and the button renders for a Completed status. -/
theorem C5_download_gating_witness :
    download demoRegistry ("p1") = DownloadOutcome.notReady ∧
    download demoRegistry ("p2") = DownloadOutcome.notFound ∧
    showDownloadButton (some ⟨"Completed", none⟩) = true := by
  refine ⟨?_, ?_, ?_⟩
  · exact C5_download_gating.1 demoRegistry ("p1") pendingSnap (by decide)
      (by decide)
  · exact C5_download_gating.2.1 demoRegistry ("p2") (by decide)
  · exact (C5_download_gating.2.2.2 (some ⟨"Completed", none⟩)).mpr
      ⟨⟨"Completed", none⟩, rfl, Or.inl rfl⟩

/-- Modelled from the spec: the five fixed pipeline stages in order; the
stage definitions themselves are not among the checked sources. -/
def stageNames : List String :=
  ["Design", "Frontend", "Backend", "Test", "Documentation"]

/-- The phase titles of the Development Timeline in DetailedProgressTracker,
in render order. -/
def timelineTitles : List String :=
  ["Phase 1: System Design", "Phase 2: Frontend Development",
   "Phase 3: Backend Development", "Phase 4: Test Creation",
   "Phase 5: Documentation"]

/-- The completion thresholds the timeline compares the derived progress
against, in render order. -/
def timelineThresholds : List Nat := [20, 40, 60, 80, 90]

/-- Embedding of the Development Timeline of DetailedProgressTracker: the
five rendered entries, each a phase title with its completion mark, the mark
set exactly when the derived progress has reached the entry threshold. -/
def timeline (phaseProgress : Nat) : List (String × Bool) :=
  [("Phase 1: System Design", decide (20 ≤ phaseProgress)),
   ("Phase 2: Frontend Development", decide (40 ≤ phaseProgress)),
   ("Phase 3: Backend Development", decide (60 ≤ phaseProgress)),
   ("Phase 4: Test Creation", decide (80 ≤ phaseProgress)),
   ("Phase 5: Documentation", decide (90 ≤ phaseProgress))]

/-- Claim C6: the pipeline has exactly 5 stages and every running stage index
of a reachable project state is below 5; the timeline renders exactly the
five phase titles in order, each title naming its stage, and entry k is
marked complete exactly when the derived progress reaches threshold k. -/
theorem C6_five_stages :
    stageNames.length = 5 ∧
    (∀ s : Orch, Reach s → ∀ i, s.phase = Phase.Running i → i < 5) ∧
    (∀ p : Nat, (timeline p).map Prod.fst = timelineTitles) ∧
    (List.zip timelineTitles stageNames).all
      (fun q => jsIncludes q.1 q.2) = true ∧
    (∀ p k : Nat, ((timeline p).get? k).map Prod.snd =
      (timelineThresholds.get? k).map (fun t => decide (t ≤ p))) := by
  refine ⟨rfl, ?_, ?_, by decide, ?_⟩
  · intro s hs i hi
    exact ((orch_inv s hs).2.1 i hi).1
  · intro p; rfl
  · intro p k
    match k with
    | 0 => rfl
    | 1 => rfl
    | 2 => rfl
    | 3 => rfl
    | 4 => rfl
    | n + 5 => rfl

/-- Witness for C6: the state after starting stage 0 is reachable with stage
index 0 below 5, and at progress 40 the second timeline entry is marked. -/
theorem C6_five_stages_witness :
    Reach orchS1 ∧ (0 : Nat) < 5 ∧
    ((timeline 40).get? 1).map Prod.snd = some true := by
  refine ⟨Reach.step Reach.init (OrchStep.start allIdle), ?_, ?_⟩
  · exact C6_five_stages.2.1 orchS1
      (Reach.step Reach.init (OrchStep.start allIdle)) 0 rfl
  · have h := C6_five_stages.2.2.2.2 40 1
    rw [h]; decide

/-- The submission input of submitProject in the api service: description,
language and an optional list of reference files, abstracted by name. -/
structure SubmitData where
  description : String
  language : String
  files : Option (List String)
deriving DecidableEq

/-- Embedding of the FormData built by submitProject: the description and
language fields, then each provided file appended under the repeated key
files. -/
def submitFormData (d : SubmitData) : List (String × String) :=
  [("description", d.description), ("language", d.language)] ++
    (match d.files with
     | some fs => fs.map (fun f => ("files", f))
     | none => [])

/-- An HTTP request as issued by the axios client: method, full url, content
type and form entries. -/
structure Request where
  method : String
  url : String
  contentType : String
  formData : List (String × String)
deriving DecidableEq

/-- Embedding of the request submitProject posts: one POST of the form data
to /projects/submit on the api instance, whose baseURL is the API base url
followed by /api, carried as multipart/form-data. -/
def submitRequest (baseURL : String) (d : SubmitData) : Request :=
  ⟨"POST", baseURL ++ "/api" ++ "/projects/submit", "multipart/form-data",
   submitFormData d⟩

/-- The created project returned by the server, from the ProjectRequest
interface: the fields the client surfaces after submission. -/
structure ProjectRec where
  id : String
  status : String
  language : String
deriving DecidableEq

/-- Embedding of submitProject: it issues the submit request to the server
and returns the response body as the created project. -/
def submitProject (baseURL : String) (d : SubmitData)
    (server : Request → ProjectRec) : ProjectRec :=
  server (submitRequest baseURL d)

/-- Form entries built from a file list never answer to a different key. -/
theorem filesEntries_filter_ne (fs : List String) (key : String)
    (h : (("files" : String) == key) = false) :
    (fs.map (fun f => (("files" : String), f))).filter
      (fun e => e.1 == key) = [] := by
  induction fs with
  | nil => rfl
  | cons f fs ih => simp [List.filter_cons, h, ih]

/-- Filtering the file form entries by the key files recovers exactly the
file list, in order. -/
theorem filesEntries_filter_eq (fs : List String) :
    ((fs.map (fun f => (("files" : String), f))).filter
      (fun e => e.1 == "files")).map Prod.snd = fs := by
  induction fs with
  | nil => rfl
  | cons f fs ih => simp [List.filter_cons, ih]

/-- Claim C7: submitProject issues exactly one multipart/form-data POST to
baseURL/api/projects/submit whose entries are the description field, the
language field and each provided file under the repeated key files, with
no other keys, and returns the server response body as the created
project. -/
theorem C7_submit (baseURL : String) (d : SubmitData)
    (server : Request → ProjectRec) :
    (submitRequest baseURL d).method = "POST" ∧
    (submitRequest baseURL d).url = baseURL ++ "/api/projects/submit" ∧
    (submitRequest baseURL d).contentType = "multipart/form-data" ∧
    ((submitRequest baseURL d).formData.filter
        (fun e => e.1 == "description")).map Prod.snd = [d.description] ∧
    ((submitRequest baseURL d).formData.filter
        (fun e => e.1 == "language")).map Prod.snd = [d.language] ∧
    ((submitRequest baseURL d).formData.filter
        (fun e => e.1 == "files")).map Prod.snd =
      (match d.files with | some fs => fs | none => []) ∧
    (∀ e ∈ (submitRequest baseURL d).formData,
      e.1 = "description" ∨ e.1 = "language" ∨ e.1 = "files") ∧
    submitProject baseURL d server = server (submitRequest baseURL d) := by
  refine ⟨rfl, ?_, rfl, ?_, ?_, ?_, ?_, rfl⟩
  · show baseURL ++ "/api" ++ "/projects/submit" = _
    rw [String.append_assoc]
    congr 1
  · cases hf : d.files with
    | none => simp [submitRequest, submitFormData, hf, List.filter_cons]
    | some fs =>
        simp [submitRequest, submitFormData, hf, List.filter_cons,
          filesEntries_filter_ne fs ("description") (by decide)]
  · cases hf : d.files with
    | none => simp [submitRequest, submitFormData, hf, List.filter_cons]
    | some fs =>
        simp [submitRequest, submitFormData, hf, List.filter_cons,
          filesEntries_filter_ne fs ("language") (by decide)]
  · cases hf : d.files with
    | none => simp [submitRequest, submitFormData, hf, List.filter_cons]
    | some fs =>
        simp [submitRequest, submitFormData, hf, List.filter_cons,
          filesEntries_filter_eq fs]
  · intro e he
    cases hf : d.files with
    | none =>
        simp only [submitRequest, submitFormData, hf, List.append_nil,
          List.mem_cons, List.not_mem_nil, or_false] at he
        rcases he with h2 | h2
        · rw [h2]; left; rfl
        · rw [h2]; right; left; rfl
    | some fs =>
        simp only [submitRequest, submitFormData, hf, List.mem_append,
          List.mem_cons, List.not_mem_nil, or_false, List.mem_map] at he
        rcases he with (h2 | h2) | ⟨f, -, hfe⟩
        · rw [h2]; left; rfl
        · rw [h2]; right; left; rfl
        · right; right; rw [← hfe]

/-- A concrete submission carrying one reference file. -/
def demoSubmit : SubmitData := ⟨"todo app", "Python", some ["notes.md"]⟩

/-- Witness for C7: the form data of the concrete submission yields exactly
its file under the key files, and the language entry answers only to the
allowed keys. -/
theorem C7_submit_witness :
    ((submitRequest ("http://localhost:8000") demoSubmit).formData.filter
        (fun e => e.1 == "files")).map Prod.snd = ["notes.md"] ∧
    ((("language", "Python") : String × String).1 = "description" ∨
      (("language", "Python") : String × String).1 = "language" ∨
      (("language", "Python") : String × String).1 = "files") := by
  refine ⟨?_, ?_⟩
  · have h := (C7_submit ("http://localhost:8000") demoSubmit
      (fun _ => ⟨"id-1", "pending", "Python"⟩)).2.2.2.2.2.1
    rw [h]; rfl
  · exact (C7_submit ("http://localhost:8000") demoSubmit
      (fun _ => ⟨"id-1", "pending", "Python"⟩)).2.2.2.2.2.2.1
      ("language", "Python") (by decide)

/-- Embedding of the onDrop handler of FileUpload: append the accepted files
to the current list and keep only the first maxFiles entries. -/
def onDrop (maxFiles : Nat) (files accepted : List String) : List String :=
  (files ++ accepted).take maxFiles

/-- Embedding of removeFile of FileUpload: keep every file whose position
differs from the removed index, filtering the index-annotated list. -/
def removeFile (files : List String) (i : Nat) : List String :=
  ((files.enum).filter (fun p => p.1 != i)).map Prod.snd

/-- A user interaction with the FileUpload component: dropping files or
removing the file at an index. -/
inductive UploadEvent where
  | drop (accepted : List String)
  | remove (i : Nat)

/-- One FileUpload state transition: both handlers compute the new list, set
it as the tracked state and report the same list through onFilesChange. The
pair holds the tracked list and the last reported list. -/
def uploadStep (maxFiles : Nat) (st : List String × List String) :
    UploadEvent → List String × List String
  | UploadEvent.drop accepted =>
      ((onDrop maxFiles st.1 accepted), (onDrop maxFiles st.1 accepted))
  | UploadEvent.remove i =>
      ((removeFile st.1 i), (removeFile st.1 i))

/-- The FileUpload state after a sequence of drop and remove events, starting
from the empty list. -/
def uploadRun (maxFiles : Nat) (events : List UploadEvent) :
    List String × List String :=
  events.foldl (uploadStep maxFiles) ([], [])

/-- Filtering a list by a predicate that some member falsifies strictly
shrinks it. -/
theorem length_filter_lt_of_mem {α : Type} {l : List α} {p : α → Bool}
    {x : α} (hx : x ∈ l) (hpx : p x = false) :
    (l.filter p).length < l.length := by
  induction l with
  | nil => cases hx
  | cons a l ih =>
      rcases List.mem_cons.mp hx with h1 | h1
      · subst h1
        have hle := List.length_filter_le p l
        simp [List.filter_cons, hpx]
        omega
      · have hlt := ih h1
        cases hpa : p a <;> simp [List.filter_cons, hpa] <;> omega

/-- removeFile never lengthens the file list. -/
theorem removeFile_length_le (fs : List String) (i : Nat) :
    (removeFile fs i).length ≤ fs.length := by
  calc (removeFile fs i).length
      = ((fs.enum).filter (fun p => p.1 != i)).length := by
        simp [removeFile]
    _ ≤ fs.enum.length := List.length_filter_le _ _
    _ = fs.length := List.enum_length

/-- removeFile at a valid index strictly shrinks the file list. -/
theorem removeFile_length_lt (fs : List String) (i : Nat)
    (h : i < fs.length) : (removeFile fs i).length < fs.length := by
  have hmem : ((i, fs.get ⟨i, h⟩) : Nat × String) ∈ fs.enum := by
    rw [List.mem_enum_iff_get?]
    exact List.get?_eq_get h
  have hlt : ((fs.enum).filter (fun p => p.1 != i)).length < fs.enum.length :=
    length_filter_lt_of_mem hmem (by simp)
  calc (removeFile fs i).length
      = ((fs.enum).filter (fun p => p.1 != i)).length := by
        simp [removeFile]
    _ < fs.enum.length := hlt
    _ = fs.length := List.enum_length

/-- Invariant of the FileUpload fold: the tracked list stays within
maxFiles and the reported list always equals the tracked list. -/
theorem uploadRun_inv (maxFiles : Nat) (events : List UploadEvent)
    (st : List String × List String)
    (h1 : st.1.length ≤ maxFiles) (h2 : st.2 = st.1) :
    (List.foldl (uploadStep maxFiles) st events).1.length ≤ maxFiles ∧
    (List.foldl (uploadStep maxFiles) st events).2 =
      (List.foldl (uploadStep maxFiles) st events).1 := by
  induction events generalizing st with
  | nil => exact ⟨h1, h2⟩
  | cons e es ih =>
      cases e with
      | drop accepted =>
          exact ih _ (List.length_take_le _ _) rfl
      | remove i =>
          exact ih _ (le_trans (removeFile_length_le st.1 i) h1) rfl

/-- Claim C8: after any sequence of drops and removals the FileUpload
component holds at most maxFiles files and the list last reported through
onFilesChange equals the tracked list; one drop keeps at most maxFiles
files, and removeFile never lengthens the list and strictly shrinks it at a
valid index. -/
theorem C8_max_files (maxFiles : Nat) (events : List UploadEvent) :
    (uploadRun maxFiles events).1.length ≤ maxFiles ∧
    (uploadRun maxFiles events).2 = (uploadRun maxFiles events).1 ∧
    (∀ fs accepted : List String,
      (onDrop maxFiles fs accepted).length ≤ maxFiles) ∧
    (∀ fs : List String, ∀ i : Nat,
      (removeFile fs i).length ≤ fs.length ∧
      (i < fs.length → (removeFile fs i).length < fs.length)) := by
  obtain ⟨ha, hb⟩ := uploadRun_inv maxFiles events ([], [])
    (by simp) rfl
  exact ⟨ha, hb, fun fs accepted => List.length_take_le _ _,
    fun fs i => ⟨removeFile_length_le fs i, removeFile_length_lt fs i⟩⟩

/-- Witness for C8: dropping six files at the default limit of five keeps
five, and removing the head of a two-element list strictly shrinks it. -/
theorem C8_max_files_witness :
    (uploadRun 5 [UploadEvent.drop ["a", "b", "c", "d", "e", "f"]]).1.length
      ≤ 5 ∧
    (removeFile ["a", "b"] 0).length < (["a", "b"] : List String).length :=
  ⟨(C8_max_files 5 [UploadEvent.drop ["a", "b", "c", "d", "e", "f"]]).1,
   ((C8_max_files 5 []).2.2.2 ["a", "b"] 0).2 (by decide)⟩

/-- A log severity level, from the LogEntry interface of the source types:
info | warning | error | success. -/
inductive LogLevel where
  | info
  | warning
  | error
  | success
deriving DecidableEq

/-- A log entry, from the LogEntry interface of the source types; the
timestamp is abstracted to a number. -/
structure LogEntry where
  id : String
  timestamp : Nat
  agent : String
  level : LogLevel
  message : String
deriving DecidableEq

/-- Embedding of recentLogs in DetailedProgressTracker: logs.slice(-10)
keeps the final at-most-ten-element suffix, then .reverse() puts the newest
entry first. -/
def recentLogs (logs : List LogEntry) : List LogEntry :=
  (logs.drop (logs.length - 10)).reverse

/-- The Real-time Activity pane: either the rendered entries or the
placeholder shown when there are none. -/
inductive ActivityPane where
  | entries (ls : List LogEntry)
  | placeholder
deriving DecidableEq

/-- Embedding of the Real-time Activity rendering: the recent entries when
there are any, the placeholder otherwise. -/
def renderActivity (logs : List LogEntry) : ActivityPane :=
  if 0 < (recentLogs logs).length then ActivityPane.entries (recentLogs logs)
  else ActivityPane.placeholder

/-- Claim C9: recentLogs is the reversal of a suffix of logs whose length is
min 10 (length logs), equal to the first ten entries of the reversed list;
the pane renders the placeholder exactly on an empty logs list and the
entries otherwise. -/
theorem C9_recent_logs (logs : List LogEntry) :
    (∃ pre : List LogEntry, logs = pre ++ (recentLogs logs).reverse) ∧
    (recentLogs logs).length = min 10 logs.length ∧
    recentLogs logs = logs.reverse.take 10 ∧
    renderActivity [] = ActivityPane.placeholder ∧
    (logs ≠ [] →
      renderActivity logs = ActivityPane.entries (recentLogs logs)) := by
  refine ⟨?_, ?_, ?_, rfl, ?_⟩
  · refine ⟨logs.take (logs.length - 10), ?_⟩
    rw [recentLogs, List.reverse_reverse, List.take_append_drop]
  · rw [recentLogs, List.length_reverse, List.length_drop]
    omega
  · rw [recentLogs]
    exact List.take_reverse.symm
  · intro hne
    have hpos : 0 < logs.length := List.length_pos.mpr hne
    have hlen : (recentLogs logs).length = min 10 logs.length := by
      rw [recentLogs, List.length_reverse, List.length_drop]
      omega
    have hrpos : 0 < (recentLogs logs).length := by omega
    unfold renderActivity
    rw [if_pos hrpos]

/-- A concrete log entry for the activity pane example. -/
def demoLog : LogEntry :=
  ⟨"log-1", 0, "Lead Architect", LogLevel.info, "Starting design"⟩

/-- Witness for C9: with one log entry the pane renders the recent entries
rather than the placeholder. -/
theorem C9_recent_logs_witness :
    renderActivity [demoLog] = ActivityPane.entries (recentLogs [demoLog]) :=
  (C9_recent_logs [demoLog]).2.2.2.2 (by simp)

/-- Embedding of the initial selectedFile state of OutputViewer: the head of
the files list when it is non-empty, null otherwise. -/
def initialSelected (files : List GeneratedFile) : Option GeneratedFile :=
  if h : 0 < files.length then some (files.get ⟨0, h⟩) else none

/-- The OutputViewer render result: the placeholder for an empty files list,
otherwise the viewer with its selected file. -/
inductive ViewerOutput where
  | placeholder
  | viewer (selected : Option GeneratedFile)
deriving DecidableEq

/-- Embedding of OutputViewer: an empty files list renders the
No files generated yet placeholder; otherwise the viewer opens with the
initial selection. -/
def outputViewer (files : List GeneratedFile) : ViewerOutput :=
  if files.length = 0 then ViewerOutput.placeholder
  else ViewerOutput.viewer (initialSelected files)

/-- Claim C10: OutputViewer on an empty files list renders the placeholder
with no selection, and on any non-empty files list its initial selection is
exactly the first file. -/
theorem C10_output_viewer :
    outputViewer [] = ViewerOutput.placeholder ∧
    initialSelected [] = none ∧
    (∀ f : GeneratedFile, ∀ fs : List GeneratedFile,
      initialSelected (f :: fs) = some f ∧
      outputViewer (f :: fs) = ViewerOutput.viewer (some f)) := by
  refine ⟨rfl, rfl, ?_⟩
  intro f fs
  constructor
  · simp [initialSelected]
  · simp [outputViewer, initialSelected]

end ETeam
